import Mathlib

/-!
Price-check kiosk (`pricecheck.go`): framing, key derivation, lookup and rendering.

A shallow embedding of the pure and sequential parts of `pricecheck.go`.
Go strings and byte slices are lists of bytes; a Go `int` is an `Int`;
a nil slice or nil pointer is `none`.  Each pipeline stage is embedded as the
body of its `for ... range in` loop, i.e. as one step on one input.
-/

namespace PriceCheck

/-! ## Bytes and string literals -/

/-- A Go `byte`. -/
abbrev Byte := UInt8

/-- The bytes of a Go string literal written with ASCII characters only. -/
def ascii (s : String) : List Byte := s.toList.map (fun c => c.toNat.toUInt8)

/-- The carriage return byte, `'\r'`. -/
def CR : Byte := 13

/-! ## `strings.HasPrefix`, `bytes.IndexByte` -/

/-- Go `strings.HasPrefix(s, prefix)`:
`len(s) >= len(prefix) && s[0:len(prefix)] == prefix`. -/
def HasPrefix (s pre : List Byte) : Bool :=
  decide (s.length ≥ pre.length) && (s.take pre.length == pre)

/-- The loop of `bytes.IndexByte`: the index of the first `c` at or after
position `i`, or `-1`. -/
def IndexByte.go (c : Byte) : List Byte → Nat → Int
  | [], _ => -1
  | b :: rest, i => if b = c then (i : Int) else IndexByte.go c rest (i + 1)

/-- Go `bytes.IndexByte(b, c)`: the index of the first instance of `c` in `b`,
or `-1` when `c` is not present. -/
def IndexByte (b : List Byte) (c : Byte) : Int := IndexByte.go c b 0

/-! ## `BarcodeToItemNo` -/

/-- Function `BarcodeToItemNo` of `pricecheck.go`. -/
def BarcodeToItemNo (barcode : List Byte) : List Byte :=
  if HasPrefix barcode (ascii "24") then
    if barcode.length ≥ 7 then
      barcode.take 7
    else barcode
  else barcode

/-! ## `ScanCRLines` -/

/-- Function `ScanCRLines` of `pricecheck.go`, a `bufio.SplitFunc`.  The result is
`(advance, token, err)`; a nil token and a nil error are `none`. -/
def ScanCRLines (data : List Byte) (atEOF : Bool) :
    Int × Option (List Byte) × Option String :=
  if atEOF && data.length == 0 then
    (0, none, none)
  else
    let i := IndexByte data CR
    if i ≥ 0 then
      (i + 1, some (data.take i.toNat), none)
    else if atEOF then
      ((data.length : Int), some data, none)
    else
      (0, none, none)

/-- The loop `for scanner.Scan() { ... out <- scanner.Text() }` of `readScanner`
once the reader has reached end-of-stream and `data` holds the unread bytes:
`bufio.Scanner.Scan` calls the split function with `atEOF = true`, stops on an
error or on an advance outside `0 ..= len(data)`, hands out the token when it
is not nil and drops the first `advance` bytes, and stops when no token comes
back.  The result is the list of tokens sent, or `none` when `fuel` calls did
not reach the end. -/
def scanTokens : Nat → List Byte → Option (List (List Byte))
  | 0, _ => none
  | fuel + 1, data =>
    match ScanCRLines data true with
    | (advance, token, err) =>
      if err.isSome then some []
      else if advance < 0 ∨ advance > (data.length : Int) then some []
      else
        match token with
        | none => some []
        | some t => (scanTokens fuel (data.drop advance.toNat)).map (fun ts => t :: ts)

/-- The spec's framing: the last piece of a split is discarded when empty. -/
def dropTrailingEmpty (pieces : List (List Byte)) : List (List Byte) :=
  if pieces.getLast? = some [] then pieces.dropLast else pieces

/-- The spec's framing of a stream: `s` split on `'\r'`, the last piece
discarded when it is empty. -/
def splitCR (s : List Byte) : List (List Byte) :=
  dropTrailingEmpty (s.splitOn CR)

/-! ## The pole display and its command table -/

/-- Table `escPosVfdCommands` of `pricecheck.go`; a Go map yields the empty string
for a key it does not hold. -/
def escPosVfdCommands (name : String) : List Byte :=
  match name with
  | "setHorizontalScrollMode" => [0x1F, 0x03]
  | "moveCursorRight" => [0x09]
  | "moveCursorLeft" => [0x08]
  | "moveCursorUp" => [0x1F, 0x0A]
  | "moveCursorDown" => [0x0A]
  | "moveCursorRightMostPosition" => [0x1F, 0x0D]
  | "moveCursorLeftMostPosition" => [0x0D]
  | "moveCursorHomePosition" => [0x0B]
  | "moveCursorBottomPosition" => [0x1F, 0x42]
  | "cursorGoto" => [0x1F, 0x24]
  | "cursorDisplay" => [0x1F, 0x43]
  | "clearScreen" => [0x0C]
  | "clearCursorLine" => [0x18]
  | "brightness" => [0x1F, 0x58]
  | "blinkDisplay" => [0x1F, 0x45]
  | _ => []

/-- The serial port of the pole display: the bytes written to it so far, and
for each coming `Write` call whether it fails (`true`); calls past the end of
`faults` succeed. -/
structure Port where
  written : List Byte
  faults : List Bool
  deriving DecidableEq, Repr

/-- One `serialPort.Write(p)` followed by `if err != nil { log.Panic(err) }`:
the port after the write, or the panic. -/
def Port.write (port : Port) (p : List Byte) : Except String Port :=
  match port.faults with
  | true :: _ => .error "write error"
  | false :: rest => .ok { written := port.written ++ p, faults := rest }
  | [] => .ok { written := port.written ++ p, faults := [] }

/-- The idle-reset timer `displayResetTimer`: the delay in seconds of the
pending firing, `none` when stopped. -/
structure Timer where
  pending : Option Nat
  deriving DecidableEq, Repr

/-- Go `Timer.Reset(d)` for `d` seconds. -/
def Timer.reset (_t : Timer) (d : Nat) : Timer := { pending := some d }

/-! ## Display Echo Stage: `displayBarcode` -/

/-- The body of the loop of `displayBarcode` for one barcode: four writes, each
panicking on error, then the barcode is sent on `out`.  The result is the port
after the writes and the value sent. -/
def displayBarcodeStep (serialPort : Port) (barcode : List Byte) :
    Except String (Port × List Byte) := do
  let serialPort ← serialPort.write
    (escPosVfdCommands "moveCursorHomePosition" ++ escPosVfdCommands "clearCursorLine")
  let serialPort ← serialPort.write (ascii "Checking Item...")
  let serialPort ← serialPort.write
    (escPosVfdCommands "moveCursorBottomPosition" ++ escPosVfdCommands "clearCursorLine")
  let serialPort ← serialPort.write barcode
  return (serialPort, barcode)

/-! ## Items and responses -/

/-- Type `Item` of `pricecheck.go`. -/
structure Item where
  Upc : List Byte
  Name : List Byte
  NameShort : List Byte
  Price : Int
  Unit : List Byte
  UseTax : Bool
  deriving DecidableEq, Repr

/-- Type `ItemResponse` of `pricecheck.go`; a nil `Data` is `none`. -/
structure ItemResponse where
  Data : Option Item
  StatusCode : Int
  deriving DecidableEq, Repr

/-! ## `fmt.Sprintf("Rp. %-12d/%3s", ...)` -/

/-- The second-byte range and size of a UTF-8 sequence by its lead byte (the
`first` and `acceptRanges` tables of `unicode/utf8`); `none` for a byte that
starts no multi-byte sequence. -/
def utf8Lead (c : Byte) : Option (Nat × Byte × Byte) :=
  if 0xC2 ≤ c ∧ c ≤ 0xDF then some (2, 0x80, 0xBF)
  else if c = 0xE0 then some (3, 0xA0, 0xBF)
  else if (0xE1 ≤ c ∧ c ≤ 0xEC) ∨ c = 0xEE ∨ c = 0xEF then some (3, 0x80, 0xBF)
  else if c = 0xED then some (3, 0x80, 0x9F)
  else if c = 0xF0 then some (4, 0x90, 0xBF)
  else if 0xF1 ≤ c ∧ c ≤ 0xF3 then some (4, 0x80, 0xBF)
  else if c = 0xF4 then some (4, 0x80, 0x8F)
  else none

/-- The number of bytes the loop of `utf8.RuneCountInString` steps over for
the rune that starts with `c` and is followed by `rest`: 1 for ASCII and for
an invalid or short sequence. -/
def runeSize (c : Byte) (rest : List Byte) : Nat :=
  if c < 0x80 then 1
  else
    match utf8Lead c with
    | none => 1
    | some (size, lo, hi) =>
      if 1 + rest.length < size then 1
      else
        match rest with
        | [] => 1
        | c1 :: r1 =>
          if c1 < lo ∨ hi < c1 then 1
          else if size = 2 then 2
          else
            match r1 with
            | [] => 1
            | c2 :: r2 =>
              if c2 < 0x80 ∨ 0xBF < c2 then 1
              else if size = 3 then 3
              else
                match r2 with
                | [] => 1
                | c3 :: _ => if c3 < 0x80 ∨ 0xBF < c3 then 1 else 4

/-- The loop of `utf8.RuneCountInString`; `skip` bytes of the current rune are
still to be stepped over. -/
def RuneCount.go : List Byte → Nat → Nat
  | [], _ => 0
  | _ :: rest, skip + 1 => RuneCount.go rest skip
  | c :: rest, 0 => 1 + RuneCount.go rest (runeSize c rest - 1)

/-- Go `utf8.RuneCountInString(s)`. -/
def RuneCount (s : List Byte) : Nat := RuneCount.go s 0

/-- The flags of a `fmt` verb that the format `"Rp. %-12d/%3s"` uses: the
width and the `-` flag. -/
structure Fmt where
  wid : Int
  widPresent : Bool
  minus : Bool

/-- Go `(*fmt).writePadding(n)` with the space as padding byte. -/
def Fmt.writePadding (n : Int) : List Byte :=
  if n ≤ 0 then [] else List.replicate n.toNat 0x20

/-- Go `(*fmt).pad(b)` and `(*fmt).padString(s)` of Go `fmt`. -/
def Fmt.pad (f : Fmt) (b : List Byte) : List Byte :=
  if !f.widPresent || f.wid == 0 then b
  else
    let width := f.wid - (RuneCount b : Int)
    if !f.minus then Fmt.writePadding width ++ b
    else b ++ Fmt.writePadding width

/-- The byte of the decimal digit `d`, `'0' + d`. -/
def digitByte (d : Nat) : Byte := (48 + d).toUInt8

/-- The base-10 loop of `(*fmt).fmtInteger`, which fills the buffer from the
right: `for u >= 10 { buf[i] = '0' + u%10; u /= 10 }; buf[i] = digits[u]`. -/
def fmtDigits : Nat → Nat → List Byte → List Byte
  | 0, u, buf => digitByte u :: buf
  | fuel + 1, u, buf =>
    if u ≥ 10 then fmtDigits fuel (u / 10) (digitByte (u % 10) :: buf)
    else digitByte u :: buf

/-- Go `(*fmt).fmtInteger` for the verb `%d` on a signed integer: the digits of
the magnitude, a leading `-` when negative, then padding. -/
def Fmt.fmtInteger (f : Fmt) (v : Int) : List Byte :=
  let buf := fmtDigits v.natAbs v.natAbs []
  let buf := if v < 0 then 0x2D :: buf else buf
  f.pad buf

/-- Go `fmt.Sprintf("Rp. %-12d/%3s", price, unit)`. -/
def sprintfPrice (price : Int) (unit : List Byte) : List Byte :=
  ascii "Rp. "
    ++ Fmt.fmtInteger { wid := 12, widPresent := true, minus := true } price
    ++ ascii "/"
    ++ Fmt.pad { wid := 3, widPresent := true, minus := false } unit

/-! ## Result Renderer: `displayItemResponse` -/

/-- The body of the loop of `displayItemResponse` for one response: the layout
chosen by `switch itemResponse.StatusCode` and `switch itemResponse.Data`, the
timer reset to 15 seconds, and the response sent on `out`. -/
def displayItemResponseStep (serialPort : Port) (displayResetTimer : Timer)
    (itemResponse : ItemResponse) : Except String (Port × Timer × ItemResponse) := do
  let serialPort ←
    if itemResponse.StatusCode = 200 then
      match itemResponse.Data with
      | none => do
        let serialPort ← serialPort.write
          (escPosVfdCommands "moveCursorHomePosition" ++ escPosVfdCommands "clearCursorLine")
        let serialPort ← serialPort.write (ascii "Item Invalid")
        let serialPort ← serialPort.write
          (escPosVfdCommands "moveCursorBottomPosition" ++ escPosVfdCommands "clearCursorLine")
        serialPort.write (ascii "Mohon cek di kasir")
      | some data => do
        let serialPort ← serialPort.write
          (escPosVfdCommands "moveCursorHomePosition" ++ escPosVfdCommands "clearCursorLine")
        let serialPort ← serialPort.write data.NameShort
        let serialPort ← serialPort.write
          (escPosVfdCommands "moveCursorBottomPosition" ++ escPosVfdCommands "clearCursorLine")
        serialPort.write (sprintfPrice data.Price data.Unit)
    else do
      let serialPort ← serialPort.write
        (escPosVfdCommands "moveCursorHomePosition" ++ escPosVfdCommands "clearCursorLine")
      let serialPort ← serialPort.write (ascii "Server Bermasalah")
      let serialPort ← serialPort.write
        (escPosVfdCommands "moveCursorBottomPosition" ++ escPosVfdCommands "clearCursorLine")
      serialPort.write (ascii "Mohon cek di kasir")
  let displayResetTimer := displayResetTimer.reset 15
  return (serialPort, displayResetTimer, itemResponse)

/-! ## `encoding/json`: decoding a body into an `ItemResponse` -/

/-- A JSON value as `encoding/json` scans it: a number literal written as an
integer with its value, any other number literal (fraction or exponent) with
its text, a string with the bytes its literal stands for once the escapes are
resolved, an object with its members in the order of the text. -/
inductive JSON where
  | null : JSON
  | bool (b : Bool) : JSON
  | int (n : Int) : JSON
  | real (lit : List Byte) : JSON
  | str (s : List Byte) : JSON
  | arr (elems : List JSON) : JSON
  | obj (members : List (List Byte × JSON)) : JSON

/-- The loop of `utf8.Valid`; `skip` bytes of the current rune are still to be
stepped over.  A byte from 0x80 on that starts no well-formed sequence makes
the text invalid. -/
def utf8Valid.go : List Byte → Nat → Bool
  | [], _ => true
  | _ :: rest, skip + 1 => utf8Valid.go rest skip
  | c :: rest, 0 =>
    if c < 0x80 then utf8Valid.go rest 0
    else if runeSize c rest = 1 then false
    else utf8Valid.go rest (runeSize c rest - 1)

/-- Go `utf8.Valid(s)`: the bytes are well-formed UTF-8. -/
def utf8Valid (s : List Byte) : Bool := utf8Valid.go s 0

/-- The loop of the UTF-8 coercion in `unquote` of `encoding/json`: each rune
is decoded and encoded again, so a byte that starts no well-formed sequence
becomes U+FFFD (EF BF BD) and every other byte stays. -/
def unquoteUTF8.go : List Byte → Nat → List Byte
  | [], _ => []
  | c :: rest, skip + 1 => c :: unquoteUTF8.go rest skip
  | c :: rest, 0 =>
    if c < 0x80 then c :: unquoteUTF8.go rest 0
    else if runeSize c rest = 1 then 0xEF :: 0xBF :: 0xBD :: unquoteUTF8.go rest 0
    else c :: unquoteUTF8.go rest (runeSize c rest - 1)

/-- The Go string that `encoding/json` stores for a JSON string. -/
def unquoteUTF8 (s : List Byte) : List Byte := unquoteUTF8.go s 0

/-- The folding of `encoding/json` for member names as far as it decides a
match with an ASCII field name: ASCII letters go to upper case, the long s
(U+017F, bytes C5 BF) goes to `S` and the Kelvin sign (U+212A, bytes E2 84 AA)
goes to `K`; every other rune folds to a rune outside ASCII and is kept. -/
def foldName : List Byte → List Byte
  | [] => []
  | c :: rest =>
    match rest with
    | c1 :: c2 :: rest2 =>
      if c = 0xE2 ∧ c1 = 0x84 ∧ c2 = 0xAA then 0x4B :: foldName rest2
      else if c = 0xC5 ∧ c1 = 0xBF then 0x53 :: foldName (c2 :: rest2)
      else (if 0x61 ≤ c ∧ c ≤ 0x7A then c - 0x20 else c) :: foldName (c1 :: c2 :: rest2)
    | c1 :: rest1 =>
      if c = 0xC5 ∧ c1 = 0xBF then 0x53 :: foldName rest1
      else (if 0x61 ≤ c ∧ c ≤ 0x7A then c - 0x20 else c) :: foldName (c1 :: rest1)
    | [] => [if 0x61 ≤ c ∧ c ≤ 0x7A then c - 0x20 else c]

/-- The field a member name selects: the one with exactly that name, else the
first whose folded name equals the folded member name.  The field names are
ASCII, so a member name with a malformed byte selects no field, with or
without the U+FFFD coercion of `unquote`; names are compared as they are. -/
def findField (names : List (List Byte)) (key : List Byte) : Option Nat :=
  match names.findIdx? (fun n => n == key) with
  | some i => some i
  | none => names.findIdx? (fun n => foldName n == foldName key)

/-- Storing a JSON value in a field of type `string`: null leaves the field as
it is, a string sets it to its unquoted text, anything else is an
`UnmarshalTypeError`. -/
def storeString (v : JSON) (cur : List Byte) : Except String (List Byte) :=
  match v with
  | .null => .ok cur
  | .str s => .ok (unquoteUTF8 s)
  | _ => .error "json: cannot unmarshal into Go value of type string"

/-- Storing a JSON value in a field of type `bool`. -/
def storeBool (v : JSON) (cur : Bool) : Except String Bool :=
  match v with
  | .null => .ok cur
  | .bool b => .ok b
  | _ => .error "json: cannot unmarshal into Go value of type bool"

/-- The values of a Go `int` that is `intSize` bits wide, as
`strconv.ParseInt(s, 10, 64)` followed by `OverflowInt` accepts them. -/
def fitsInt (intSize : Nat) (n : Int) : Prop :=
  -(2 ^ 63 : Int) ≤ n ∧ n < 2 ^ 63 ∧ -(2 ^ (intSize - 1) : Int) ≤ n ∧ n < 2 ^ (intSize - 1)

instance (intSize : Nat) (n : Int) : Decidable (fitsInt intSize n) := by
  unfold fitsInt; infer_instance

/-- Storing a JSON value in a field of type `int`. -/
def storeInt (intSize : Nat) (v : JSON) (cur : Int) : Except String Int :=
  match v with
  | .null => .ok cur
  | .int n =>
    if fitsInt intSize n then .ok n
    else .error "json: cannot unmarshal number into Go value of type int"
  | _ => .error "json: cannot unmarshal into Go value of type int"

/-- The member names of `Item`, from its `json:"..."` tags, in field order. -/
def itemFieldNames : List (List Byte) :=
  [ascii "upc", ascii "name", ascii "nameShort", ascii "price", ascii "unit", ascii "useTax"]

/-- The member names of `ItemResponse`: the tag `json:"data"` and, for the
untagged field, its Go name. -/
def itemResponseFieldNames : List (List Byte) :=
  [ascii "data", ascii "StatusCode"]

/-- One member of an object decoded into an `Item`; a member that selects no
field is skipped. -/
def decodeItemMember (intSize : Nat) (item : Item) (m : List Byte × JSON) :
    Except String Item :=
  match findField itemFieldNames m.1 with
  | some 0 => (storeString m.2 item.Upc).map (fun x => { item with Upc := x })
  | some 1 => (storeString m.2 item.Name).map (fun x => { item with Name := x })
  | some 2 => (storeString m.2 item.NameShort).map (fun x => { item with NameShort := x })
  | some 3 => (storeInt intSize m.2 item.Price).map (fun x => { item with Price := x })
  | some 4 => (storeString m.2 item.Unit).map (fun x => { item with Unit := x })
  | some 5 => (storeBool m.2 item.UseTax).map (fun x => { item with UseTax := x })
  | _ => .ok item

/-- The zero value of `Item`, which a nil `*Item` is set to before an object
is decoded into it. -/
def Item.zero : Item :=
  { Upc := [], Name := [], NameShort := [], Price := 0, Unit := [], UseTax := false }

/-- Storing a JSON value in the field `Data *Item`: null sets the pointer to
nil, an object is decoded into the item pointed to (a fresh one when the
pointer is nil), anything else is an `UnmarshalTypeError`. -/
def storeItemPtr (intSize : Nat) (v : JSON) (cur : Option Item) : Except String (Option Item) :=
  match v with
  | .null => .ok none
  | .obj members =>
    (members.foldlM (decodeItemMember intSize) (cur.getD Item.zero)).map some
  | _ => .error "json: cannot unmarshal into Go value of type main.Item"

/-- One member of an object decoded into an `ItemResponse`. -/
def decodeItemResponseMember (intSize : Nat) (r : ItemResponse) (m : List Byte × JSON) :
    Except String ItemResponse :=
  match findField itemResponseFieldNames m.1 with
  | some 0 => (storeItemPtr intSize m.2 r.Data).map (fun x => { r with Data := x })
  | some 1 => (storeInt intSize m.2 r.StatusCode).map (fun x => { r with StatusCode := x })
  | _ => .ok r

/-- The sequel of `json.NewDecoder(body).Decode(&itemResponse)` once the value
`v` has been scanned: an object is decoded member by member, null changes
nothing, any other value is an `UnmarshalTypeError`.  The result is the error
or the `itemResponse` after the call. -/
def decodeItemResponse (intSize : Nat) (v : JSON) (itemResponse : ItemResponse) :
    Except String ItemResponse :=
  match v with
  | .null => .ok itemResponse
  | .obj members => members.foldlM (decodeItemResponseMember intSize) itemResponse
  | _ => .error "json: cannot unmarshal into Go value of type main.ItemResponse"

/-! ## `net/http`: the request and the response -/

/-- The body of an HTTP response as the lookup stage reads it: reading fails,
or the bytes read do not start with a JSON value, or they start with the JSON
value `v`. -/
inductive Body where
  | unreadable : Body
  | malformed : Body
  | json (v : JSON) : Body

/-- The part of `http.Response` that the lookup stage uses. -/
structure Response where
  StatusCode : Int
  Body : Body

/-- The part of `http.Request` that the lookup stage sets. -/
structure Request where
  Method : List Byte
  URL : List Byte
  Header : List (List Byte × List Byte)
  deriving DecidableEq, Repr

/-- Go `net/url.stringContainsCTLByte`: some byte is below 0x20 or is 0x7f. -/
def stringContainsCTLByte (s : List Byte) : Bool :=
  s.any (fun b => b < 0x20 || b == 0x7F)

/-- Go `net/url.ishex`. -/
def ishex (c : Byte) : Bool :=
  (0x30 ≤ c && c ≤ 0x39) || (0x61 ≤ c && c ≤ 0x66) || (0x41 ≤ c && c ≤ 0x46)

/-- The check of `net/url.unescape` in the modes for a path and for a
fragment: every `%` is followed by two hexadecimal digits. -/
def validEscapes : List Byte → Bool
  | [] => true
  | c :: rest =>
    if c = 0x25 then
      match rest with
      | h1 :: h2 :: rest2 => ishex h1 && ishex h2 && validEscapes rest2
      | _ => false
    else validEscapes rest

/-- Go `strings.Cut(s, sep)` for a one-byte separator: the text before and
after the first `sep`, all of `s` and nothing when there is none. -/
def cutByte (s : List Byte) (sep : Byte) : List Byte × List Byte :=
  (s.takeWhile (fun b => b != sep), (s.dropWhile (fun b => b != sep)).drop 1)

/-- Go `http.NewRequest("GET", "http://pos1.cps:4000/api/v1/items/"+itemNo, nil)`:
the request, or `none` for the nil request that comes with an error.  The
method and the authority are fixed and valid, so the call fails exactly when
`url.Parse` rejects the text after the authority: `Parse` cuts off the
fragment at the first `#`, rejects a control byte before it, cuts off the
query at the first `?` and rejects a malformed `%` escape in the path or in
the fragment. -/
def NewRequest (itemNo : List Byte) : Option Request :=
  let rest := ascii "/api/v1/items/" ++ itemNo
  let (u, frag) := cutByte rest 0x23
  if stringContainsCTLByte u then none
  else
    let (path, _rawQuery) := cutByte u 0x3F
    if !validEscapes path then none
    else if !validEscapes frag then none
    else some { Method := ascii "GET", URL := ascii "http://pos1.cps:4000" ++ rest, Header := [] }

/-- Go `Header.Add(key, value)`. -/
def Request.headerAdd (req : Request) (key value : List Byte) : Request :=
  { req with Header := req.Header ++ [(key, value)] }

/-! ## Lookup Stage: `queryScannedItem` -/

/-- What one turn of the loop of `queryScannedItem` ends in: a response sent
on `out`, a `continue` without sending, or a panic of the goroutine. -/
inductive LookupResult where
  | emitted (r : ItemResponse) : LookupResult
  | dropped : LookupResult
  | panicked : LookupResult
  deriving DecidableEq, Repr

/-- The body of the loop of `queryScannedItem` for one barcode.  `clientDo` is
`client.Do`, the answer of the network to a request; `intSize` is the width of
`int` on the target.  The error of `http.NewRequest` is overwritten unread, so
a nil request reaches `req.Header.Add`, a nil pointer dereference. -/
def queryScannedItemStep (intSize : Nat) (clientDo : Request → Except String Response)
    (barcode : List Byte) : LookupResult :=
  let itemNo := BarcodeToItemNo barcode
  match NewRequest itemNo with
  | none => .panicked
  | some req =>
    let req := req.headerAdd (ascii "Accept") (ascii "application/json")
    match clientDo req with
    | .error _ => .emitted { Data := none, StatusCode := -1 }
    | .ok resp =>
      let itemResponse : ItemResponse := { Data := none, StatusCode := resp.StatusCode }
      if resp.StatusCode = 200 then
        match resp.Body with
        | .json v =>
          match decodeItemResponse intSize v itemResponse with
          | .error _ => .dropped
          | .ok itemResponse => .emitted itemResponse
        | _ => .dropped
      else if resp.StatusCode = 404 ∨ resp.StatusCode = 500 then
        .emitted itemResponse
      else
        match resp.Body with
        | .unreadable => .dropped
        | _ => .emitted itemResponse

/-- The JSON object with the members of the Item schema of the lookup
service: `{upc, name, nameShort, price, unit, useTax}`. -/
def Item.toJSON (item : Item) : JSON :=
  .obj [(ascii "upc", .str item.Upc), (ascii "name", .str item.Name),
    (ascii "nameShort", .str item.NameShort), (ascii "price", .int item.Price),
    (ascii "unit", .str item.Unit), (ascii "useTax", .bool item.UseTax)]

/-- A member of an object that matches the Item schema: one of the six names
with a value of its type, where a string is well-formed UTF-8 and the price
is an integer that fits an `int`. -/
def schemaMember (intSize : Nat) (m : List Byte × JSON) : Bool :=
  match m.2 with
  | .str s =>
    (m.1 == ascii "upc" || m.1 == ascii "name" || m.1 == ascii "nameShort"
      || m.1 == ascii "unit") && utf8Valid s
  | .int n => m.1 == ascii "price" && decide (fitsInt intSize n)
  | .bool _ => m.1 == ascii "useTax"
  | _ => false

/-- The value an object gives for a member name: that of its last member of
that name, `none` when it has none. -/
def memberValue : List (List Byte × JSON) → List Byte → Option JSON
  | [], _ => none
  | m :: ms, key =>
    match memberValue ms key with
    | some v => some v
    | none => if m.1 = key then some m.2 else none

/-- The string a member value stands for, `d` when there is none. -/
def strOr (d : List Byte) : Option JSON → List Byte
  | some (.str s) => s
  | _ => d

/-- The integer a member value stands for, `d` when there is none. -/
def intOr (d : Int) : Option JSON → Int
  | some (.int n) => n
  | _ => d

/-- The boolean a member value stands for, `d` when there is none. -/
def boolOr (d : Bool) : Option JSON → Bool
  | some (.bool b) => b
  | _ => d

/-- The item whose fields equal the members of an object, each field taken
from the member of its name and left as in `cur` when the object has no such
member. -/
def Item.withMembers (cur : Item) (ms : List (List Byte × JSON)) : Item :=
  { Upc := strOr cur.Upc (memberValue ms (ascii "upc"))
    Name := strOr cur.Name (memberValue ms (ascii "name"))
    NameShort := strOr cur.NameShort (memberValue ms (ascii "nameShort"))
    Price := intOr cur.Price (memberValue ms (ascii "price"))
    Unit := strOr cur.Unit (memberValue ms (ascii "unit"))
    UseTax := boolOr cur.UseTax (memberValue ms (ascii "useTax")) }

/-- The item whose fields equal the members of an object; a field without a
member has the zero value. -/
def Item.ofMembers (ms : List (List Byte × JSON)) : Item :=
  Item.zero.withMembers ms

/-! ## The layout of the price line in the spec's words -/

/-- The decimal numeral of an integer: a `-` for a negative number, then the
decimal digits of the magnitude, most significant first, `0` for zero. -/
def decimal (n : Int) : List Byte :=
  (if n < 0 then [0x2D] else [])
    ++ (if n = 0 then [0x30] else ((Nat.digits 10 n.natAbs).reverse.map digitByte))

/-- A text left-justified in a field of `width` characters: spaces are added
on the right up to the width. -/
def leftJustify (width : Nat) (s : List Byte) : List Byte :=
  s ++ List.replicate (width - RuneCount s) 0x20

/-- A text right-justified in a field of `width` characters: spaces are added
on the left up to the width. -/
def rightJustify (width : Nat) (s : List Byte) : List Byte :=
  List.replicate (width - RuneCount s) 0x20 ++ s

/-! ## Facts about `bytes.IndexByte` and `ScanCRLines` -/

theorem IndexByte.go_of_not_mem (c : Byte) (l : List Byte) (k : Nat) (h : c ∉ l) :
    IndexByte.go c l k = -1 := by
  induction l generalizing k with
  | nil => rfl
  | cons b rest ih =>
    have hb : b ≠ c := fun e => h (by simp [e])
    have hr : c ∉ rest := fun e => h (List.mem_cons_of_mem _ e)
    simp [IndexByte.go, hb, ih _ hr]

theorem IndexByte.go_of_first (c : Byte) (front rest : List Byte) (k : Nat) (h : c ∉ front) :
    IndexByte.go c (front ++ c :: rest) k = ((k + front.length : Nat) : Int) := by
  induction front generalizing k with
  | nil => simp [IndexByte.go]
  | cons b tl ih =>
    have hb : b ≠ c := fun e => h (by simp [e])
    have hr : c ∉ tl := fun e => h (List.mem_cons_of_mem _ e)
    have e := ih (k + 1) hr
    show IndexByte.go c (b :: (tl ++ c :: rest)) k = _
    rw [IndexByte.go, if_neg hb, e, List.length_cons]
    congr 1; omega

/-- A list that holds `c` splits at the first `c`. -/
theorem exists_first_split (c : Byte) (l : List Byte) (h : c ∈ l) :
    ∃ front rest, l = front ++ c :: rest ∧ c ∉ front := by
  induction l with
  | nil => simp at h
  | cons b tl ih =>
    by_cases hb : b = c
    · exact ⟨[], tl, by simp [hb], by simp⟩
    · have hc : c ∈ tl := by
        rcases List.mem_cons.mp h with e | e
        · exact absurd e.symm hb
        · exact e
      obtain ⟨front, rest, e, hf⟩ := ih hc
      refine ⟨b :: front, rest, by simp [e], ?_⟩
      intro hm
      rcases List.mem_cons.mp hm with e2 | e2
      · exact hb e2.symm
      · exact hf e2

theorem ScanCRLines_of_first (front rest : List Byte) (atEOF : Bool) (h : CR ∉ front) :
    ScanCRLines (front ++ CR :: rest) atEOF
      = ((front.length : Int) + 1, some front, none) := by
  have hi : IndexByte (front ++ CR :: rest) CR = (front.length : Int) := by
    simp [IndexByte, IndexByte.go_of_first CR front rest 0 h]
  have hlen : ¬ ((atEOF && (front ++ CR :: rest).length == 0) = true) := by
    simp
  simp only [ScanCRLines, hlen, if_false, hi]
  simp

theorem ScanCRLines_of_not_mem (data : List Byte) (atEOF : Bool) (h : CR ∉ data) :
    ScanCRLines data atEOF
      = if atEOF && !data.isEmpty then ((data.length : Int), some data, none)
        else (0, none, none) := by
  have hi : IndexByte data CR = -1 := IndexByte.go_of_not_mem CR data 0 h
  cases atEOF <;> cases data <;> simp [ScanCRLines, hi]

/-! ## Facts about the framing -/

theorem dropTrailingEmpty_cons (p : List Byte) (ps : List (List Byte)) (h : ps ≠ []) :
    dropTrailingEmpty (p :: ps) = p :: dropTrailingEmpty ps := by
  cases ps with
  | nil => exact absurd rfl h
  | cons q qs =>
    simp only [dropTrailingEmpty, List.getLast?_cons_cons, List.dropLast_cons₂]
    split <;> rfl

theorem splitCR_of_first (front rest : List Byte) (h : CR ∉ front) :
    splitCR (front ++ CR :: rest) = front :: splitCR rest := by
  have hs : (front ++ CR :: rest).splitOn CR = front :: rest.splitOn CR := by
    unfold List.splitOn
    apply List.splitOnP_first
    · intro x hx hxe
      have : x = CR := by simpa using hxe
      exact h (this ▸ hx)
    · simp
  unfold splitCR
  rw [hs]
  exact dropTrailingEmpty_cons _ _ (List.splitOnP_ne_nil _ _)

theorem splitCR_of_not_mem (data : List Byte) (h : CR ∉ data) (hne : data ≠ []) :
    splitCR data = [data] := by
  have hs : data.splitOn CR = [data] := by
    unfold List.splitOn
    apply List.splitOnP_eq_single
    intro x hx hxe
    have : x = CR := by simpa using hxe
    exact h (this ▸ hx)
  unfold splitCR
  rw [hs]
  cases data with
  | nil => exact absurd rfl hne
  | cons b tl => simp [dropTrailingEmpty]

theorem splitCR_length_le_aux (n : Nat) (s : List Byte) (hn : s.length ≤ n) :
    (splitCR s).length ≤ s.length := by
  induction n generalizing s with
  | zero =>
    have : s = [] := List.length_eq_zero.mp (by omega)
    subst this
    simp [splitCR, dropTrailingEmpty]
  | succ n ih =>
    by_cases hcr : CR ∈ s
    · obtain ⟨front, rest, e, hf⟩ := exists_first_split CR s hcr
      subst e
      have hlen : (front ++ CR :: rest).length = front.length + (rest.length + 1) := by
        simp only [List.length_append, List.length_cons]
      have := ih rest (by omega)
      rw [splitCR_of_first front rest hf, List.length_cons]
      omega
    · cases s with
      | nil => simp [splitCR, dropTrailingEmpty]
      | cons b tl =>
        rw [splitCR_of_not_mem (b :: tl) hcr (List.cons_ne_nil _ _)]
        simp only [List.length_cons, List.length_nil]
        omega

theorem splitCR_length_le (s : List Byte) : (splitCR s).length ≤ s.length :=
  splitCR_length_le_aux s.length s (Nat.le_refl _)

theorem scanTokens_nil (fuel : Nat) : scanTokens (fuel + 1) [] = some [] := by
  simp [scanTokens, ScanCRLines]

/-- With more fuel than bytes, the loop ends and sends the pieces of the
stream. -/
theorem scanTokens_eq_splitCR (fuel : Nat) (s : List Byte) (h : s.length < fuel) :
    scanTokens fuel s = some (splitCR s) := by
  induction fuel generalizing s with
  | zero => omega
  | succ n ih =>
    by_cases hcr : CR ∈ s
    · obtain ⟨front, rest, e, hf⟩ := exists_first_split CR s hcr
      subst e
      have hlen : rest.length < n := by
        simp only [List.length_append, List.length_cons] at h; omega
      have hdrop : List.drop (front.length + 1) (front ++ CR :: rest) = rest := by
        rw [List.drop_append_eq_append_drop]
        simp
      have hadv : ¬ ((front.length : Int) + 1 < 0 ∨
          (front.length : Int) + 1 > ((front ++ CR :: rest).length : Int)) := by
        simp only [List.length_append, List.length_cons]; push_cast; omega
      have htn : ((front.length : Int) + 1).toNat = front.length + 1 := by omega
      simp only [scanTokens, ScanCRLines_of_first front rest true hf, Option.isSome_none,
        Bool.false_eq_true, if_false, hadv, htn, hdrop, ih rest hlen,
        splitCR_of_first front rest hf, Option.map_some']
    · by_cases hne : s = []
      · subst hne
        simp [scanTokens, ScanCRLines, splitCR, dropTrailingEmpty]
      · have hn : 0 < n := by
          cases s with
          | nil => exact absurd rfl hne
          | cons b tl => simp only [List.length_cons] at h; omega
        obtain ⟨m, rfl⟩ : ∃ m, n = m + 1 := ⟨n - 1, by omega⟩
        have hsc : ScanCRLines s true = ((s.length : Int), some s, none) := by
          rw [ScanCRLines_of_not_mem s true hcr]
          cases s with
          | nil => exact absurd rfl hne
          | cons b tl => simp
        have hadv : ¬ ((s.length : Int) < 0 ∨ (s.length : Int) > (s.length : Int)) := by
          omega
        rw [scanTokens]
        simp only [hsc, Option.isSome_none, Bool.false_eq_true, if_false, hadv,
          Int.toNat_ofNat, List.drop_length, scanTokens_nil, Option.map_some',
          splitCR_of_not_mem s hcr hne]

theorem HasPrefix_iff (s front : List Byte) : HasPrefix s front = true ↔ front <+: s := by
  unfold HasPrefix
  rw [List.prefix_iff_eq_take]
  constructor
  · intro h
    simp only [Bool.and_eq_true, decide_eq_true_eq, beq_iff_eq] at h
    exact h.2.symm
  · intro h
    simp only [Bool.and_eq_true, decide_eq_true_eq, beq_iff_eq]
    refine ⟨?_, h.symm⟩
    have := congrArg List.length h
    simp only [List.length_take] at this
    omega

/-! ## Facts about the display port -/

/-- Four writes in a row on a port whose next four calls do not fail, then
the rest `k` of the step. -/
theorem Port.write4_bind {α : Type} (port : Port) (a b c d : List Byte)
    (k : Port → Except String α) (h : ∀ f ∈ port.faults.take 4, f = false) :
    (do
      let p ← port.write a
      let p ← p.write b
      let p ← p.write c
      let p ← p.write d
      k p)
    = k { written := port.written ++ a ++ b ++ c ++ d, faults := port.faults.drop 4 } := by
  obtain ⟨w, fs⟩ := port
  rcases fs with _ | ⟨f1, _ | ⟨f2, _ | ⟨f3, _ | ⟨f4, fs⟩⟩⟩⟩ <;>
    simp only [List.take, List.mem_cons, List.mem_nil_iff, or_false, forall_eq_or_imp,
      forall_eq, List.not_mem_nil, false_implies, implies_true, and_true] at h <;>
    simp [Port.write, bind, Except.bind, h]

/-! ## Facts about the formatting -/

theorem digitByte_lt (d : Nat) (h : d < 10) : digitByte d < 0x80 := by
  interval_cases d <;> decide

theorem RuneCount.go_ascii (s : List Byte) (h : ∀ b ∈ s, b < 0x80) :
    RuneCount.go s 0 = s.length := by
  induction s with
  | nil => rfl
  | cons c rest ih =>
    have hc : c < 0x80 := h c (List.mem_cons_self _ _)
    have hr : ∀ b ∈ rest, b < 0x80 := fun b hb => h b (List.mem_cons_of_mem _ hb)
    rw [RuneCount.go, runeSize, if_pos hc, Nat.sub_self, ih hr, List.length_cons]
    omega

theorem RuneCount_ascii (s : List Byte) (h : ∀ b ∈ s, b < 0x80) :
    RuneCount s = s.length :=
  RuneCount.go_ascii s h

theorem RuneCount.go_ascii_append (a b : List Byte) (h : ∀ x ∈ a, x < 0x80) :
    RuneCount.go (a ++ b) 0 = a.length + RuneCount.go b 0 := by
  induction a with
  | nil => simp
  | cons c rest ih =>
    have hc : c < 0x80 := h c (List.mem_cons_self _ _)
    have hr : ∀ x ∈ rest, x < 0x80 := fun x hx => h x (List.mem_cons_of_mem _ hx)
    rw [List.cons_append, RuneCount.go, runeSize, if_pos hc, Nat.sub_self, ih hr,
      List.length_cons]
    omega

/-- The digit loop of `fmtInteger` writes the decimal digits of `u` in front
of the buffer. -/
theorem fmtDigits_eq (fuel u : Nat) (buf : List Byte) (h : u ≤ fuel) :
    fmtDigits fuel u buf
      = (if u = 0 then [0x30] else ((Nat.digits 10 u).reverse.map digitByte)) ++ buf := by
  induction fuel generalizing u buf with
  | zero =>
    have : u = 0 := by omega
    subst this
    rfl
  | succ n ih =>
    rw [fmtDigits]
    by_cases hu : u ≥ 10
    · have hq : u / 10 ≤ n := by omega
      have hq0 : u / 10 ≠ 0 := by omega
      have hu0 : u ≠ 0 := by omega
      rw [if_pos hu, ih (u / 10) _ hq, if_neg hq0, if_neg hu0]
      have e : Nat.digits 10 u = (u % 10) :: Nat.digits 10 (u / 10) :=
        Nat.digits_def' (by decide) (by omega)
      rw [e]
      simp
    · rw [if_neg hu]
      by_cases hu0 : u = 0
      · subst hu0; rfl
      · rw [if_neg hu0, Nat.digits_of_lt 10 u hu0 (by omega)]
        rfl

theorem fmtInteger_buf_eq_decimal (v : Int) :
    (if v < 0 then 0x2D :: fmtDigits v.natAbs v.natAbs [] else fmtDigits v.natAbs v.natAbs [])
      = decimal v := by
  have hz : v.natAbs = 0 ↔ v = 0 := Int.natAbs_eq_zero
  rw [fmtDigits_eq _ _ _ (Nat.le_refl _), List.append_nil]
  unfold decimal
  by_cases hv : v < 0
  · simp only [if_pos hv, hz, List.singleton_append]
  · simp only [if_neg hv, hz, List.nil_append]

theorem decimal_ascii (v : Int) : ∀ b ∈ decimal v, b < 0x80 := by
  intro b hb
  unfold decimal at hb
  rcases List.mem_append.mp hb with h | h
  · split at h
    · have : b = 0x2D := by simpa using h
      subst this; decide
    · simp at h
  · split at h
    · have : b = 0x30 := by simpa using h
      subst this; decide
    · obtain ⟨d, hd, rfl⟩ := List.mem_map.mp h
      exact digitByte_lt d (Nat.digits_lt_base (by decide) (List.mem_reverse.mp hd))

theorem sprintfPrice_eq (price : Int) (unit : List Byte) :
    sprintfPrice price unit
      = ascii "Rp. " ++ leftJustify 12 (decimal price) ++ ascii "/" ++ rightJustify 3 unit := by
  have hl : Fmt.fmtInteger { wid := 12, widPresent := true, minus := true } price
      = leftJustify 12 (decimal price) := by
    unfold Fmt.fmtInteger
    simp only [fmtInteger_buf_eq_decimal]
    unfold Fmt.pad Fmt.writePadding leftJustify
    simp only [Bool.not_true, Bool.false_or, beq_iff_eq]
    rw [if_neg (by decide)]
    simp only [Bool.false_eq_true, if_false]
    split
    · rename_i h
      rw [Nat.sub_eq_zero_of_le (by omega)]; rfl
    · rename_i h
      congr 2
      omega
  have hr : Fmt.pad { wid := 3, widPresent := true, minus := false } unit
      = rightJustify 3 unit := by
    unfold Fmt.pad Fmt.writePadding rightJustify
    simp only [Bool.not_true, Bool.false_or, beq_iff_eq]
    rw [if_neg (by decide)]
    simp only [Bool.not_false, if_true]
    split
    · rename_i h
      rw [Nat.sub_eq_zero_of_le (by omega)]; rfl
    · rename_i h
      congr 2
      omega
  unfold sprintfPrice
  rw [hl, hr]

/-- The price line has 20 characters when the numeral has at most 12 and the
unit at most 3. -/
theorem priceLine_runeCount (price : Int) (unit : List Byte)
    (hp : (decimal price).length ≤ 12) (hu : RuneCount unit ≤ 3) :
    RuneCount (ascii "Rp. " ++ leftJustify 12 (decimal price) ++ ascii "/"
      ++ rightJustify 3 unit) = 20 := by
  have hd : RuneCount (decimal price) = (decimal price).length :=
    RuneCount_ascii _ (decimal_ascii _)
  have hsp : ∀ (k : Nat), ∀ x ∈ List.replicate k (0x20 : Byte), x < 0x80 := by
    intro k x hx
    rw [List.eq_of_mem_replicate hx]; decide
  have hfront : ∀ x ∈ ascii "Rp. " ++ leftJustify 12 (decimal price) ++ ascii "/"
      ++ List.replicate (3 - RuneCount unit) (0x20 : Byte), x < 0x80 := by
    intro x hx
    simp only [leftJustify, List.mem_append] at hx
    rcases hx with ((h | h | h) | h) | h
    · revert x; decide
    · exact decimal_ascii _ x h
    · exact hsp _ x h
    · revert x; decide
    · exact hsp _ x h
  have hre : ascii "Rp. " ++ leftJustify 12 (decimal price) ++ ascii "/" ++ rightJustify 3 unit
      = (ascii "Rp. " ++ leftJustify 12 (decimal price) ++ ascii "/"
          ++ List.replicate (3 - RuneCount unit) (0x20 : Byte)) ++ unit := by
    simp only [rightJustify, List.append_assoc]
  have hsplit := RuneCount.go_ascii_append _ unit hfront
  have hu2 : RuneCount.go unit 0 = RuneCount unit := rfl
  have hlen1 : (ascii "Rp. ").length = 4 := by decide
  have hlen2 : (ascii "/").length = 1 := by decide
  rw [hre]
  show RuneCount.go _ 0 = 20
  rw [hsplit, hu2]
  simp only [leftJustify, List.length_append, List.length_replicate, hd, hlen1, hlen2]
  omega

/-! ## Facts about the renderer and the decoder -/

/-- The Found layout: a response with status 200 and an item, on a port whose
next four writes do not fail. -/
theorem displayItemResponseStep_found (port : Port) (timer : Timer) (item : Item)
    (h : ∀ f ∈ port.faults.take 4, f = false) :
    displayItemResponseStep port timer ⟨some item, 200⟩
      = Except.ok
          ({ written := port.written ++ [0x0B, 0x18] ++ item.NameShort ++ [0x1F, 0x42, 0x18]
              ++ sprintfPrice item.Price item.Unit,
             faults := port.faults.drop 4 }, ⟨some 15⟩, ⟨some item, 200⟩) := by
  have h4 := Port.write4_bind port
    (escPosVfdCommands "moveCursorHomePosition" ++ escPosVfdCommands "clearCursorLine")
    item.NameShort
    (escPosVfdCommands "moveCursorBottomPosition" ++ escPosVfdCommands "clearCursorLine")
    (sprintfPrice item.Price item.Unit)
    (fun p => Except.ok (p, Timer.reset timer 15, (⟨some item, 200⟩ : ItemResponse))) h
  simp only [displayItemResponseStep, pure, Except.pure, if_true, bind_assoc]
  rw [h4]
  simp [escPosVfdCommands, Timer.reset]

/-- The "Item Invalid" layout: a response with status 200 and a nil `Data`. -/
theorem displayItemResponseStep_invalid (port : Port) (timer : Timer)
    (h : ∀ f ∈ port.faults.take 4, f = false) :
    displayItemResponseStep port timer ⟨none, 200⟩
      = Except.ok
          ({ written := port.written ++ [0x0B, 0x18] ++ ascii "Item Invalid"
              ++ [0x1F, 0x42, 0x18] ++ ascii "Mohon cek di kasir",
             faults := port.faults.drop 4 }, ⟨some 15⟩, ⟨none, 200⟩) := by
  have h4 := Port.write4_bind port
    (escPosVfdCommands "moveCursorHomePosition" ++ escPosVfdCommands "clearCursorLine")
    (ascii "Item Invalid")
    (escPosVfdCommands "moveCursorBottomPosition" ++ escPosVfdCommands "clearCursorLine")
    (ascii "Mohon cek di kasir")
    (fun p => Except.ok (p, Timer.reset timer 15, (⟨none, 200⟩ : ItemResponse))) h
  simp only [displayItemResponseStep, pure, Except.pure, if_true, bind_assoc]
  rw [h4]
  simp [escPosVfdCommands, Timer.reset]

/-- The "Server Bermasalah" layout: a response with any status but 200. -/
theorem displayItemResponseStep_other (port : Port) (timer : Timer) (r : ItemResponse)
    (hs : r.StatusCode ≠ 200) (h : ∀ f ∈ port.faults.take 4, f = false) :
    displayItemResponseStep port timer r
      = Except.ok
          ({ written := port.written ++ [0x0B, 0x18] ++ ascii "Server Bermasalah"
              ++ [0x1F, 0x42, 0x18] ++ ascii "Mohon cek di kasir",
             faults := port.faults.drop 4 }, ⟨some 15⟩, r) := by
  have h4 := Port.write4_bind port
    (escPosVfdCommands "moveCursorHomePosition" ++ escPosVfdCommands "clearCursorLine")
    (ascii "Server Bermasalah")
    (escPosVfdCommands "moveCursorBottomPosition" ++ escPosVfdCommands "clearCursorLine")
    (ascii "Mohon cek di kasir")
    (fun p => Except.ok (p, Timer.reset timer 15, r)) h
  simp only [displayItemResponseStep, pure, Except.pure, if_neg hs, bind_assoc]
  rw [h4]
  simp [escPosVfdCommands, Timer.reset]

theorem unquoteUTF8.go_of_valid (s : List Byte) (k : Nat) (h : utf8Valid.go s k = true) :
    unquoteUTF8.go s k = s := by
  induction s generalizing k with
  | nil => rfl
  | cons c rest ih =>
    cases k with
    | succ k =>
      rw [utf8Valid.go] at h
      rw [unquoteUTF8.go, ih k h]
    | zero =>
      rw [utf8Valid.go] at h
      rw [unquoteUTF8.go]
      by_cases hc : c < 0x80
      · rw [if_pos hc] at h
        rw [if_pos hc, ih 0 h]
      · rw [if_neg hc] at h
        rw [if_neg hc]
        by_cases h1 : runeSize c rest = 1
        · rw [if_pos h1] at h
          exact absurd h (by decide)
        · rw [if_neg h1] at h
          rw [if_neg h1, ih _ h]

theorem unquoteUTF8_of_valid (s : List Byte) (h : utf8Valid s = true) : unquoteUTF8 s = s :=
  unquoteUTF8.go_of_valid s 0 h

theorem memberValue_cons_ne (k : List Byte) (v : JSON) (ms : List (List Byte × JSON))
    (key : List Byte) (h : k ≠ key) :
    memberValue ((k, v) :: ms) key = memberValue ms key := by
  rw [memberValue]
  cases memberValue ms key with
  | none => simp [h]
  | some w => rfl

theorem memberValue_cons_self (k : List Byte) (v : JSON) (ms : List (List Byte × JSON)) :
    memberValue ((k, v) :: ms) k = some ((memberValue ms k).getD v) := by
  rw [memberValue]
  cases memberValue ms k with
  | none => simp
  | some w => rfl

/-- In an object that matches the schema, the value found for a name is a
value of the schema for that name. -/
theorem memberValue_schema (intSize : Nat) (ms : List (List Byte × JSON))
    (h : ∀ m ∈ ms, schemaMember intSize m = true) (key : List Byte) (v : JSON)
    (hv : memberValue ms key = some v) : schemaMember intSize (key, v) = true := by
  induction ms with
  | nil => simp [memberValue] at hv
  | cons m ms ih =>
    have hm := h m (List.mem_cons_self _ _)
    have hms : ∀ x ∈ ms, schemaMember intSize x = true :=
      fun x hx => h x (List.mem_cons_of_mem _ hx)
    rw [memberValue] at hv
    cases hr : memberValue ms key with
    | some w =>
      rw [hr] at hv
      have : w = v := Option.some.inj hv
      exact ih hms (this ▸ hr)
    | none =>
      rw [hr] at hv
      by_cases hk : m.1 = key
      · rw [if_pos hk] at hv
        have : m.2 = v := Option.some.inj hv
        rw [← hk, ← this]
        exact hm
      · rw [if_neg hk] at hv
        exact Option.noConfusion hv

theorem strOr_cons (d s : List Byte) (o : Option JSON)
    (h : ∀ w, o = some w → ∃ t, w = JSON.str t) :
    strOr d (some (o.getD (JSON.str s))) = strOr s o := by
  cases o with
  | none => rfl
  | some w =>
    obtain ⟨t, rfl⟩ := h w rfl
    rfl

theorem intOr_cons (d n : Int) (o : Option JSON)
    (h : ∀ w, o = some w → ∃ t, w = JSON.int t) :
    intOr d (some (o.getD (JSON.int n))) = intOr n o := by
  cases o with
  | none => rfl
  | some w =>
    obtain ⟨t, rfl⟩ := h w rfl
    rfl

theorem boolOr_cons (d b : Bool) (o : Option JSON)
    (h : ∀ w, o = some w → ∃ t, w = JSON.bool t) :
    boolOr d (some (o.getD (JSON.bool b))) = boolOr b o := by
  cases o with
  | none => rfl
  | some w =>
    obtain ⟨t, rfl⟩ := h w rfl
    rfl

/-- In an object that matches the schema, the value of a string member is a
string. -/
theorem schema_str (intSize : Nat) (key : List Byte) (w : JSON)
    (hk : key ≠ ascii "price") (hk2 : key ≠ ascii "useTax")
    (h : schemaMember intSize (key, w) = true) : ∃ t, w = JSON.str t := by
  cases w with
  | str t => exact ⟨t, rfl⟩
  | int n => simp [schemaMember, hk] at h
  | bool b => simp [schemaMember, hk2] at h
  | null => simp [schemaMember] at h
  | real l => simp [schemaMember] at h
  | arr l => simp [schemaMember] at h
  | obj l => simp [schemaMember] at h

theorem schema_int (intSize : Nat) (w : JSON)
    (h : schemaMember intSize (ascii "price", w) = true) : ∃ t, w = JSON.int t := by
  cases w with
  | int n => exact ⟨n, rfl⟩
  | str t => simp +decide [schemaMember] at h
  | bool b => simp +decide [schemaMember] at h
  | null => simp [schemaMember] at h
  | real l => simp [schemaMember] at h
  | arr l => simp [schemaMember] at h
  | obj l => simp [schemaMember] at h

theorem schema_bool (intSize : Nat) (w : JSON)
    (h : schemaMember intSize (ascii "useTax", w) = true) : ∃ t, w = JSON.bool t := by
  cases w with
  | bool b => exact ⟨b, rfl⟩
  | str t => simp +decide [schemaMember] at h
  | int n => simp +decide [schemaMember] at h
  | null => simp [schemaMember] at h
  | real l => simp [schemaMember] at h
  | arr l => simp [schemaMember] at h
  | obj l => simp [schemaMember] at h

/-- Decoding the members of an object that matches the Item schema into an
item sets each field to the member of its name. -/
theorem decodeItem_members (intSize : Nat) (ms : List (List Byte × JSON)) (cur : Item)
    (h : ∀ m ∈ ms, schemaMember intSize m = true) :
    ms.foldlM (decodeItemMember intSize) cur = Except.ok (cur.withMembers ms) := by
  have f0 : findField itemFieldNames (ascii "upc") = some 0 := by decide
  have f1 : findField itemFieldNames (ascii "name") = some 1 := by decide
  have f2 : findField itemFieldNames (ascii "nameShort") = some 2 := by decide
  have f3 : findField itemFieldNames (ascii "price") = some 3 := by decide
  have f4 : findField itemFieldNames (ascii "unit") = some 4 := by decide
  have f5 : findField itemFieldNames (ascii "useTax") = some 5 := by decide
  induction ms generalizing cur with
  | nil => cases cur; rfl
  | cons m ms ih =>
    have hm := h m (List.mem_cons_self _ _)
    have hms : ∀ x ∈ ms, schemaMember intSize x = true :=
      fun x hx => h x (List.mem_cons_of_mem _ hx)
    have ty := memberValue_schema intSize ms hms
    obtain ⟨k, v⟩ := m
    cases v with
    | null => simp [schemaMember] at hm
    | real l => simp [schemaMember] at hm
    | arr l => simp [schemaMember] at hm
    | obj l => simp [schemaMember] at hm
    | str s =>
      simp only [schemaMember, Bool.and_eq_true, Bool.or_eq_true, beq_iff_eq] at hm
      obtain ⟨hk, hs⟩ := hm
      have hu := unquoteUTF8_of_valid s hs
      rcases hk with ((rfl | rfl) | rfl) | rfl
      · simp only [List.foldlM_cons, decodeItemMember, f0, storeString, hu, Except.map, bind,
          Except.bind]
        rw [ih _ hms]
        congr 1
        unfold Item.withMembers
        rw [memberValue_cons_self, memberValue_cons_ne _ _ _ _ (by decide),
          memberValue_cons_ne _ _ _ _ (by decide), memberValue_cons_ne _ _ _ _ (by decide),
          memberValue_cons_ne _ _ _ _ (by decide), memberValue_cons_ne _ _ _ _ (by decide),
          strOr_cons _ _ _ (fun w hw =>
            schema_str intSize _ w (by decide) (by decide) (ty _ w hw))]
      · simp only [List.foldlM_cons, decodeItemMember, f1, storeString, hu, Except.map, bind,
          Except.bind]
        rw [ih _ hms]
        congr 1
        unfold Item.withMembers
        rw [memberValue_cons_self, memberValue_cons_ne _ _ _ _ (by decide),
          memberValue_cons_ne _ _ _ _ (by decide), memberValue_cons_ne _ _ _ _ (by decide),
          memberValue_cons_ne _ _ _ _ (by decide), memberValue_cons_ne _ _ _ _ (by decide),
          strOr_cons _ _ _ (fun w hw =>
            schema_str intSize _ w (by decide) (by decide) (ty _ w hw))]
      · simp only [List.foldlM_cons, decodeItemMember, f2, storeString, hu, Except.map, bind,
          Except.bind]
        rw [ih _ hms]
        congr 1
        unfold Item.withMembers
        rw [memberValue_cons_self, memberValue_cons_ne _ _ _ _ (by decide),
          memberValue_cons_ne _ _ _ _ (by decide), memberValue_cons_ne _ _ _ _ (by decide),
          memberValue_cons_ne _ _ _ _ (by decide), memberValue_cons_ne _ _ _ _ (by decide),
          strOr_cons _ _ _ (fun w hw =>
            schema_str intSize _ w (by decide) (by decide) (ty _ w hw))]
      · simp only [List.foldlM_cons, decodeItemMember, f4, storeString, hu, Except.map, bind,
          Except.bind]
        rw [ih _ hms]
        congr 1
        unfold Item.withMembers
        rw [memberValue_cons_self, memberValue_cons_ne _ _ _ _ (by decide),
          memberValue_cons_ne _ _ _ _ (by decide), memberValue_cons_ne _ _ _ _ (by decide),
          memberValue_cons_ne _ _ _ _ (by decide), memberValue_cons_ne _ _ _ _ (by decide),
          strOr_cons _ _ _ (fun w hw =>
            schema_str intSize _ w (by decide) (by decide) (ty _ w hw))]
    | int n =>
      simp only [schemaMember, Bool.and_eq_true, beq_iff_eq, decide_eq_true_eq] at hm
      obtain ⟨rfl, hfit⟩ := hm
      simp only [List.foldlM_cons, decodeItemMember, f3, storeInt, hfit, if_true, Except.map,
        bind, Except.bind]
      rw [ih _ hms]
      congr 1
      unfold Item.withMembers
      rw [memberValue_cons_self, memberValue_cons_ne _ _ _ _ (by decide),
        memberValue_cons_ne _ _ _ _ (by decide), memberValue_cons_ne _ _ _ _ (by decide),
        memberValue_cons_ne _ _ _ _ (by decide), memberValue_cons_ne _ _ _ _ (by decide),
        intOr_cons _ _ _ (fun w hw => schema_int intSize w (ty _ w hw))]
    | bool b =>
      simp only [schemaMember, beq_iff_eq] at hm
      subst hm
      simp only [List.foldlM_cons, decodeItemMember, f5, storeBool, Except.map, bind,
        Except.bind]
      rw [ih _ hms]
      congr 1
      unfold Item.withMembers
      rw [memberValue_cons_self, memberValue_cons_ne _ _ _ _ (by decide),
        memberValue_cons_ne _ _ _ _ (by decide), memberValue_cons_ne _ _ _ _ (by decide),
        memberValue_cons_ne _ _ _ _ (by decide), memberValue_cons_ne _ _ _ _ (by decide),
        boolOr_cons _ _ _ (fun w hw => schema_bool intSize w (ty _ w hw))]

/-- Decoding the envelope `{"data": item}` into a fresh `ItemResponse`, for an
object `item` that matches the Item schema. -/
theorem decodeItemResponse_envelope (intSize : Nat) (members : List (List Byte × JSON))
    (status : Int) (h : ∀ m ∈ members, schemaMember intSize m = true) :
    decodeItemResponse intSize (JSON.obj [(ascii "data", JSON.obj members)]) ⟨none, status⟩
      = Except.ok ⟨some (Item.ofMembers members), status⟩ := by
  have f0 : findField itemResponseFieldNames (ascii "data") = some 0 := by decide
  simp [decodeItemResponse, List.foldlM, decodeItemResponseMember, f0, storeItemPtr,
    decodeItem_members intSize members Item.zero h, Item.ofMembers, Except.map, bind,
    Except.bind, pure, Except.pure]

/-! ## The claims -/

/-- C1: for every barcode `b`, `BarcodeToItemNo b` is the first 7 bytes of `b`
when `b` begins with "24" and is at least 7 bytes long, and is `b` itself
otherwise; "2412345678" gives "2412345", "241234" and "890123" are unchanged.
(A character of a Go string is a byte here: `len` and `barcode[0:7]` count
bytes.) -/
theorem C1_BarcodeToItemNo (b : List Byte) :
    BarcodeToItemNo b = (if ascii "24" <+: b ∧ 7 ≤ b.length then b.take 7 else b)
    ∧ BarcodeToItemNo (ascii "2412345678") = ascii "2412345"
    ∧ BarcodeToItemNo (ascii "241234") = ascii "241234"
    ∧ BarcodeToItemNo (ascii "890123") = ascii "890123" := by
  refine ⟨?_, by decide, by decide, by decide⟩
  unfold BarcodeToItemNo
  by_cases hp : HasPrefix b (ascii "24") = true
  · have hp2 := (HasPrefix_iff b (ascii "24")).mp hp
    by_cases hl : b.length ≥ 7
    · rw [if_pos hp, if_pos hl, if_pos ⟨hp2, hl⟩]
    · rw [if_pos hp, if_neg hl, if_neg (fun h => hl h.2)]
  · have hp2 : ¬ (ascii "24" <+: b) := fun h => hp ((HasPrefix_iff b (ascii "24")).mpr h)
    rw [if_neg hp, if_neg (fun h => hp2 h.1)]

/-- C2: for every finite byte stream `s`, the tokens that the scanning loop
hands out at end-of-stream (`ScanCRLines` applied again and again to the
remaining bytes, each call advancing by the returned amount) are, in order,
`s` split on '\r' with the last piece discarded when it is empty; the loop
ends within `len(s) + 1` calls.  "ABC\rDEF\r" yields ["ABC","DEF"], "ABC\rDE"
yields ["ABC","DE"], the empty stream yields no token. -/
theorem C2_scanTokens_splitCR (s : List Byte) (extra : Nat) :
    scanTokens (s.length + 1 + extra) s = some (splitCR s)
    ∧ scanTokens 9 (ascii "ABC\rDEF\r") = some [ascii "ABC", ascii "DEF"]
    ∧ scanTokens 8 (ascii "ABC\rDE") = some [ascii "ABC", ascii "DE"]
    ∧ scanTokens 1 [] = some [] := by
  refine ⟨scanTokens_eq_splitCR _ s (by omega), by decide, by decide, by decide⟩

/-- C3: when `i` is the offset of the first '\r' of `data`, `ScanCRLines`
returns advance `i + 1`, the token `data[0:i]` and no error, for either value
of `atEOF`, and the token holds no '\r'. -/
theorem C3_ScanCRLines_delimiter (data : List Byte) (atEOF : Bool) (i : Nat)
    (hcr : data[i]? = some CR) (hfirst : ∀ j, j < i → data[j]? ≠ some CR) :
    ScanCRLines data atEOF = ((i : Int) + 1, some (data.take i), none)
    ∧ CR ∉ data.take i := by
  have hi : i < data.length := by
    by_contra hge
    rw [List.getElem?_eq_none (by omega)] at hcr
    exact Option.noConfusion hcr
  have hnot : CR ∉ data.take i := by
    intro hm
    obtain ⟨j, hj⟩ := List.mem_iff_getElem?.mp hm
    have hjlt : j < i := by
      by_contra hge
      rw [List.getElem?_eq_none (by simp only [List.length_take]; omega)] at hj
      exact Option.noConfusion hj
    rw [List.getElem?_take_of_lt hjlt] at hj
    exact hfirst j hjlt hj
  have hsplit : data = data.take i ++ CR :: data.drop (i + 1) := by
    have h1 : data.drop i = CR :: data.drop (i + 1) := by
      rw [List.drop_eq_getElem_cons hi]
      have : data[i] = CR := by
        rw [List.getElem?_eq_getElem hi] at hcr
        exact Option.some.inj hcr
      rw [this]
    rw [← h1, List.take_append_drop]
  refine ⟨?_, hnot⟩
  have h := ScanCRLines_of_first (data.take i) (data.drop (i + 1)) atEOF hnot
  rw [← hsplit] at h
  rw [h, List.length_take, Nat.min_eq_left (Nat.le_of_lt hi)]

theorem C3_ScanCRLines_delimiter_witness :
    ScanCRLines (ascii "ABC\rDE") false = (((3 : Nat) : Int) + 1, some ((ascii "ABC\rDE").take 3), none)
    ∧ CR ∉ (ascii "ABC\rDE").take 3 :=
  C3_ScanCRLines_delimiter (ascii "ABC\rDE") false 3 (by decide) (by decide)

/-- C4: for a buffer without '\r', `ScanCRLines` with `atEOF` false returns
advance 0 and no token, whatever the length of the buffer; with `atEOF` true
and a buffer that is not empty it returns advance `len(data)` and the whole
buffer as the token; in both cases no error. -/
theorem C4_ScanCRLines_no_delimiter (data : List Byte) (h : CR ∉ data) :
    ScanCRLines data false = (0, none, none)
    ∧ (data = [] ∨ ScanCRLines data true = ((data.length : Int), some data, none)) := by
  constructor
  · rw [ScanCRLines_of_not_mem data false h]; rfl
  · cases data with
    | nil => exact Or.inl rfl
    | cons b tl =>
      right
      rw [ScanCRLines_of_not_mem (b :: tl) true h]; rfl

theorem C4_ScanCRLines_no_delimiter_witness :
    ScanCRLines (ascii "DE") false = (0, none, none)
    ∧ (ascii "DE" = [] ∨ ScanCRLines (ascii "DE") true
        = (((ascii "DE").length : Int), some (ascii "DE"), none)) :=
  C4_ScanCRLines_no_delimiter (ascii "DE") (by decide)

/-- C10: for every buffer and either `atEOF`, `ScanCRLines` returns no error
and an advance between 0 and `len(data)`, and a token only together with an
advance of at least 1; the scanning loop over a stream of `n` bytes at
end-of-stream ends within `n + 1` calls and hands out at most `n` tokens. -/
theorem C10_ScanCRLines_progress (data : List Byte) (atEOF : Bool) (extra : Nat) :
    (ScanCRLines data atEOF).2.2 = none
    ∧ 0 ≤ (ScanCRLines data atEOF).1
    ∧ (ScanCRLines data atEOF).1 ≤ (data.length : Int)
    ∧ ((ScanCRLines data atEOF).2.1 = none ∨ 1 ≤ (ScanCRLines data atEOF).1)
    ∧ ∃ tokens, scanTokens (data.length + 1 + extra) data = some tokens
        ∧ tokens.length ≤ data.length := by
  have hscan : (ScanCRLines data atEOF).2.2 = none
      ∧ 0 ≤ (ScanCRLines data atEOF).1
      ∧ (ScanCRLines data atEOF).1 ≤ (data.length : Int)
      ∧ ((ScanCRLines data atEOF).2.1 = none ∨ 1 ≤ (ScanCRLines data atEOF).1) := by
    by_cases hcr : CR ∈ data
    · obtain ⟨front, rest, e, hf⟩ := exists_first_split CR data hcr
      subst e
      rw [ScanCRLines_of_first front rest atEOF hf]
      refine ⟨rfl, ?_, ?_, Or.inr ?_⟩ <;> dsimp only
      · omega
      · simp only [List.length_append, List.length_cons]; push_cast; omega
      · omega
    · rw [ScanCRLines_of_not_mem data atEOF hcr]
      cases atEOF <;> cases data <;> simp <;> omega
  refine ⟨hscan.1, hscan.2.1, hscan.2.2.1, hscan.2.2.2, splitCR data,
    scanTokens_eq_splitCR _ data (by omega), ?_⟩
  exact splitCR_length_le data

/-- C9: for every barcode `b`, when the display writes succeed, the Display
Echo Stage writes exactly 0B 18, "Checking Item...", 1F 42 18 and the bytes of
`b`, in that order, after what the display already holds, and sends `b`
itself downstream. -/
theorem C9_displayBarcode (port : Port) (b : List Byte)
    (h : ∀ f ∈ port.faults.take 4, f = false) :
    ∃ after, displayBarcodeStep port b = Except.ok (after, b)
      ∧ after.written
        = port.written ++ [0x0B, 0x18] ++ ascii "Checking Item..." ++ [0x1F, 0x42, 0x18] ++ b := by
  obtain ⟨w, fs⟩ := port
  refine ⟨{ written := w ++ [0x0B, 0x18] ++ ascii "Checking Item..."
      ++ [0x1F, 0x42, 0x18] ++ b, faults := fs.drop 4 }, ?_, rfl⟩
  have h4 := Port.write4_bind ⟨w, fs⟩
    (escPosVfdCommands "moveCursorHomePosition" ++ escPosVfdCommands "clearCursorLine")
    (ascii "Checking Item...")
    (escPosVfdCommands "moveCursorBottomPosition" ++ escPosVfdCommands "clearCursorLine")
    b (fun p => Except.ok (p, b)) h
  simp only [displayBarcodeStep, pure, Except.pure]
  rw [h4]
  simp [escPosVfdCommands]

theorem C9_displayBarcode_witness :
    ∃ after, displayBarcodeStep ⟨[], [false, false, false, false, true]⟩ (ascii "8991234")
        = Except.ok (after, ascii "8991234")
      ∧ after.written
        = [] ++ [0x0B, 0x18] ++ ascii "Checking Item..." ++ [0x1F, 0x42, 0x18] ++ ascii "8991234" :=
  C9_displayBarcode ⟨[], [false, false, false, false, true]⟩ (ascii "8991234") (by decide)

/-- C5 (counterexample): for the barcode "999999" and a response with status
404, the Lookup Stage sends an `ItemResponse` with StatusCode 404 and a nil
`Data`, and the Renderer writes 0B 18 "Server Bermasalah" 1F 42 18
"Mohon cek di kasir", not the "Item Invalid" layout. -/
theorem C5_status_404_counterexample :
    queryScannedItemStep 64 (fun _ => Except.ok ⟨404, Body.malformed⟩) (ascii "999999")
      = LookupResult.emitted ⟨none, 404⟩
    ∧ displayItemResponseStep ⟨[], []⟩ ⟨none⟩ ⟨none, 404⟩
      = Except.ok (⟨[0x0B, 0x18] ++ ascii "Server Bermasalah" ++ [0x1F, 0x42, 0x18]
          ++ ascii "Mohon cek di kasir", []⟩, ⟨some 15⟩, ⟨none, 404⟩) := by
  constructor
  · decide
  · rfl

/-- C5 (amended): for every lookup whose response has status 404 or 500, the
Lookup Stage sends an `ItemResponse` with that status and a nil `Data`, and the
Renderer, when its writes succeed, writes exactly 0B 18 "Server Bermasalah"
1F 42 18 "Mohon cek di kasir"; the layout 0B 18 "Item Invalid" 1F 42 18
"Mohon cek di kasir" is what it writes for StatusCode 200 with a nil `Data`. -/
theorem C5_not_found_layout (intSize : Nat)
    (clientDo : Request → Except String Response) (barcode : List Byte)
    (req : Request) (resp : Response) (port : Port) (timer : Timer)
    (hreq : NewRequest (BarcodeToItemNo barcode) = some req)
    (hdo : clientDo (req.headerAdd (ascii "Accept") (ascii "application/json"))
      = Except.ok resp)
    (hstatus : resp.StatusCode = 404 ∨ resp.StatusCode = 500)
    (hport : ∀ f ∈ port.faults.take 4, f = false) :
    queryScannedItemStep intSize clientDo barcode
      = LookupResult.emitted ⟨none, resp.StatusCode⟩
    ∧ (∃ after, displayItemResponseStep port timer ⟨none, resp.StatusCode⟩
        = Except.ok (after, ⟨some 15⟩, ⟨none, resp.StatusCode⟩)
      ∧ after.written
        = port.written ++ [0x0B, 0x18] ++ ascii "Server Bermasalah" ++ [0x1F, 0x42, 0x18]
          ++ ascii "Mohon cek di kasir")
    ∧ (∃ after, displayItemResponseStep port timer ⟨none, 200⟩
        = Except.ok (after, ⟨some 15⟩, ⟨none, 200⟩)
      ∧ after.written
        = port.written ++ [0x0B, 0x18] ++ ascii "Item Invalid" ++ [0x1F, 0x42, 0x18]
          ++ ascii "Mohon cek di kasir") := by
  have hne : resp.StatusCode ≠ 200 := by
    rcases hstatus with e | e <;> rw [e] <;> decide
  refine ⟨?_, ⟨_, displayItemResponseStep_other port timer ⟨none, resp.StatusCode⟩ hne hport,
    rfl⟩, ⟨_, displayItemResponseStep_invalid port timer hport, rfl⟩⟩
  simp only [queryScannedItemStep, hreq, hdo, if_neg hne, if_pos hstatus]

theorem C5_not_found_layout_witness :
    queryScannedItemStep 64 (fun _ => Except.ok ⟨500, Body.unreadable⟩) (ascii "999999")
      = LookupResult.emitted ⟨none, (⟨500, Body.unreadable⟩ : Response).StatusCode⟩
    ∧ (∃ after, displayItemResponseStep ⟨[], [false]⟩ ⟨none⟩
          ⟨none, (⟨500, Body.unreadable⟩ : Response).StatusCode⟩
        = Except.ok (after, ⟨some 15⟩, ⟨none, (⟨500, Body.unreadable⟩ : Response).StatusCode⟩)
      ∧ after.written
        = [] ++ [0x0B, 0x18] ++ ascii "Server Bermasalah" ++ [0x1F, 0x42, 0x18]
          ++ ascii "Mohon cek di kasir")
    ∧ (∃ after, displayItemResponseStep ⟨[], [false]⟩ ⟨none⟩ ⟨none, 200⟩
        = Except.ok (after, ⟨some 15⟩, ⟨none, 200⟩)
      ∧ after.written
        = [] ++ [0x0B, 0x18] ++ ascii "Item Invalid" ++ [0x1F, 0x42, 0x18]
          ++ ascii "Mohon cek di kasir") :=
  C5_not_found_layout 64 (fun _ => Except.ok ⟨500, Body.unreadable⟩) (ascii "999999")
    ⟨ascii "GET", ascii "http://pos1.cps:4000/api/v1/items/999999", []⟩
    ⟨500, Body.unreadable⟩ ⟨[], [false]⟩ ⟨none⟩ (by decide) rfl (Or.inr rfl) (by decide)

/-- C8 (the code at the failing input): for the barcode "100%" the URL
"http://pos1.cps:4000/api/v1/items/100%" ends in a malformed escape,
`http.NewRequest` returns a nil request, and the step ends in the panic of
`req.Header.Add` on it, whatever the network would answer; likewise for the
barcode "\n456", which holds a control byte. -/
theorem C8_malformed_url_panics (intSize : Nat)
    (clientDo : Request → Except String Response) :
    queryScannedItemStep intSize clientDo (ascii "100%") = LookupResult.panicked
    ∧ queryScannedItemStep intSize clientDo (ascii "\n456") = LookupResult.panicked := by
  have h1 : NewRequest (BarcodeToItemNo (ascii "100%")) = none := by decide
  have h2 : NewRequest (BarcodeToItemNo (ascii "\n456")) = none := by decide
  constructor
  · simp only [queryScannedItemStep, h1]
  · simp only [queryScannedItemStep, h2]

/-- C6: for every response with StatusCode 200 and an item, when the display
writes succeed, the Renderer writes exactly 0B 18, `NameShort`, 1F 42 18, then
"Rp. ", the decimal price left-justified in a field of 12 characters, "/", and
the unit right-justified in a field of 3 characters.  The decimal price has
one byte per character, and the second line has 20 characters unless the
numeral is longer than 12 characters or the unit longer than 3, which are
written whole.  For price 15000 and unit "PCS" the second line is "Rp. ",
"15000", 7 spaces, "/PCS", 20 characters. -/
theorem C6_found_layout (port : Port) (timer : Timer) (item : Item)
    (h : ∀ f ∈ port.faults.take 4, f = false) :
    (∃ after, displayItemResponseStep port timer ⟨some item, 200⟩
        = Except.ok (after, ⟨some 15⟩, ⟨some item, 200⟩)
      ∧ after.written
        = port.written ++ [0x0B, 0x18] ++ item.NameShort ++ [0x1F, 0x42, 0x18]
          ++ (ascii "Rp. " ++ leftJustify 12 (decimal item.Price) ++ ascii "/"
            ++ rightJustify 3 item.Unit))
    ∧ RuneCount (decimal item.Price) = (decimal item.Price).length
    ∧ (12 < (decimal item.Price).length ∨ 3 < RuneCount item.Unit
      ∨ RuneCount (ascii "Rp. " ++ leftJustify 12 (decimal item.Price) ++ ascii "/"
            ++ rightJustify 3 item.Unit) = 20)
    ∧ sprintfPrice 15000 (ascii "PCS")
        = ascii "Rp. " ++ ascii "15000" ++ List.replicate 7 0x20 ++ ascii "/PCS"
    ∧ (sprintfPrice 15000 (ascii "PCS")).length = 20 := by
  refine ⟨⟨_, displayItemResponseStep_found port timer item h, ?_⟩,
    RuneCount_ascii _ (decimal_ascii _), ?_, by decide, by decide⟩
  · simp only [sprintfPrice_eq]
  · by_cases hp : 12 < (decimal item.Price).length
    · exact Or.inl hp
    · by_cases hu : 3 < RuneCount item.Unit
      · exact Or.inr (Or.inl hu)
      · exact Or.inr (Or.inr (priceLine_runeCount _ _ (by omega) (by omega)))

theorem C6_found_layout_witness :
    (∃ after, displayItemResponseStep ⟨[], []⟩ ⟨none⟩
          ⟨some ⟨ascii "8991234", ascii "COLA 1.5 LITER", ascii "COLA 1.5L", 15000,
            ascii "PCS", true⟩, 200⟩
        = Except.ok (after, ⟨some 15⟩,
          ⟨some ⟨ascii "8991234", ascii "COLA 1.5 LITER", ascii "COLA 1.5L", 15000,
            ascii "PCS", true⟩, 200⟩)
      ∧ after.written
        = [] ++ [0x0B, 0x18] ++ ascii "COLA 1.5L" ++ [0x1F, 0x42, 0x18]
          ++ (ascii "Rp. " ++ leftJustify 12 (decimal 15000) ++ ascii "/"
            ++ rightJustify 3 (ascii "PCS")))
    ∧ RuneCount (decimal 15000) = (decimal 15000).length
    ∧ (12 < (decimal 15000).length ∨ 3 < RuneCount (ascii "PCS")
      ∨ RuneCount (ascii "Rp. " ++ leftJustify 12 (decimal 15000) ++ ascii "/"
            ++ rightJustify 3 (ascii "PCS")) = 20)
    ∧ sprintfPrice 15000 (ascii "PCS")
        = ascii "Rp. " ++ ascii "15000" ++ List.replicate 7 0x20 ++ ascii "/PCS"
    ∧ (sprintfPrice 15000 (ascii "PCS")).length = 20 :=
  C6_found_layout ⟨[], []⟩ ⟨none⟩
    ⟨ascii "8991234", ascii "COLA 1.5 LITER", ascii "COLA 1.5L", 15000, ascii "PCS", true⟩
    (by decide)

/-- C7 (counterexample): for the barcode "2412345678" and a response with
status 200 whose body is the object of the Item schema itself,
`{upc, name, nameShort:"SUSU", price:8500, unit:"BTL", useTax}`, and likewise
the body `{nameShort:"SUSU", price:8500, unit:"BTL"}`, the Lookup Stage sends
an `ItemResponse` with StatusCode 200 and a nil `Data`, and the Renderer
writes the "Item Invalid" layout, not "SUSU". -/
theorem C7_flat_body_counterexample :
    queryScannedItemStep 64
        (fun _ => Except.ok ⟨200, Body.json (Item.toJSON
          ⟨ascii "2412345", ascii "SUSU UHT", ascii "SUSU", 8500, ascii "BTL", false⟩)⟩)
        (ascii "2412345678")
      = LookupResult.emitted ⟨none, 200⟩
    ∧ queryScannedItemStep 64
        (fun _ => Except.ok ⟨200, Body.json (JSON.obj
          [(ascii "nameShort", JSON.str (ascii "SUSU")), (ascii "price", JSON.int 8500),
            (ascii "unit", JSON.str (ascii "BTL"))])⟩)
        (ascii "2412345678")
      = LookupResult.emitted ⟨none, 200⟩
    ∧ displayItemResponseStep ⟨[], []⟩ ⟨none⟩ ⟨none, 200⟩
      = Except.ok (⟨[0x0B, 0x18] ++ ascii "Item Invalid" ++ [0x1F, 0x42, 0x18]
          ++ ascii "Mohon cek di kasir", []⟩, ⟨some 15⟩, ⟨none, 200⟩) := by
  refine ⟨?_, ?_, ?_⟩
  · decide
  · decide
  · rfl

/-- C7 (amended): for every response with status 200 whose body is the object
`{"data": item}`, `item` being an object that matches the Item schema (any of
the members upc, name, nameShort, price, unit, useTax, in any order, strings
well-formed UTF-8, the price an integer that fits an `int`), the Lookup Stage
sends an `ItemResponse` with StatusCode 200 and a `Data` whose fields equal
the members of `item`, and the Renderer, when its writes succeed, shows the
Found layout with the member `nameShort` on line 1 and the members `price` and
`unit` on line 2. -/
theorem C7_enveloped_body_found (intSize : Nat)
    (clientDo : Request → Except String Response) (barcode : List Byte)
    (members : List (List Byte × JSON)) (req : Request) (port : Port) (timer : Timer)
    (hreq : NewRequest (BarcodeToItemNo barcode) = some req)
    (hdo : clientDo (req.headerAdd (ascii "Accept") (ascii "application/json"))
      = Except.ok ⟨200, Body.json (JSON.obj [(ascii "data", JSON.obj members)])⟩)
    (hschema : ∀ m ∈ members, schemaMember intSize m = true)
    (hport : ∀ f ∈ port.faults.take 4, f = false) :
    queryScannedItemStep intSize clientDo barcode
      = LookupResult.emitted ⟨some (Item.ofMembers members), 200⟩
    ∧ ∃ after, displayItemResponseStep port timer ⟨some (Item.ofMembers members), 200⟩
        = Except.ok (after, ⟨some 15⟩, ⟨some (Item.ofMembers members), 200⟩)
      ∧ after.written
        = port.written ++ [0x0B, 0x18] ++ strOr [] (memberValue members (ascii "nameShort"))
          ++ [0x1F, 0x42, 0x18]
          ++ sprintfPrice (intOr 0 (memberValue members (ascii "price")))
              (strOr [] (memberValue members (ascii "unit"))) := by
  refine ⟨?_, _, displayItemResponseStep_found port timer (Item.ofMembers members) hport, rfl⟩
  simp only [queryScannedItemStep, hreq, hdo, if_true,
    decodeItemResponse_envelope intSize members 200 hschema]

theorem C7_enveloped_body_found_witness :
    queryScannedItemStep 64
        (fun _ => Except.ok ⟨200, Body.json (JSON.obj [(ascii "data", JSON.obj
          [(ascii "nameShort", JSON.str (ascii "SUSU")), (ascii "price", JSON.int 8500),
            (ascii "unit", JSON.str (ascii "BTL"))])])⟩)
        (ascii "2412345678")
      = LookupResult.emitted ⟨some ⟨[], [], ascii "SUSU", 8500, ascii "BTL", false⟩, 200⟩
    ∧ ∃ after, displayItemResponseStep ⟨[], []⟩ ⟨none⟩
          ⟨some ⟨[], [], ascii "SUSU", 8500, ascii "BTL", false⟩, 200⟩
        = Except.ok (after, ⟨some 15⟩,
          ⟨some ⟨[], [], ascii "SUSU", 8500, ascii "BTL", false⟩, 200⟩)
      ∧ after.written
        = [] ++ [0x0B, 0x18] ++ ascii "SUSU" ++ [0x1F, 0x42, 0x18]
          ++ sprintfPrice 8500 (ascii "BTL") :=
  C7_enveloped_body_found 64
    (fun _ => Except.ok ⟨200, Body.json (JSON.obj [(ascii "data", JSON.obj
      [(ascii "nameShort", JSON.str (ascii "SUSU")), (ascii "price", JSON.int 8500),
        (ascii "unit", JSON.str (ascii "BTL"))])])⟩)
    (ascii "2412345678")
    [(ascii "nameShort", JSON.str (ascii "SUSU")), (ascii "price", JSON.int 8500),
      (ascii "unit", JSON.str (ascii "BTL"))]
    ⟨ascii "GET", ascii "http://pos1.cps:4000/api/v1/items/2412345", []⟩
    ⟨[], []⟩ ⟨none⟩ (by decide) rfl (by decide) (by decide)

end PriceCheck
